import Mathlib

/-
Verification of the BURRITO bake-UI core (src/burrito_v_0.0.1.py).

The embedding models the orchestration core of the script:
- the per-namespace status dictionary `_STATUS` (values 'not', 'baked',
  'skipped', 'failed', 'canceled') as a partial map `StatusMap`;
- the batch driver `bake_selected_actors_in_range_with_progress` as a
  recursive function over the namespace list, threading the status map and
  collecting the trace of namespaces on which the external retarget call
  was actually invoked;
- the external world (cancellation polling, `_read_bind_driver` reads,
  success/failure of the retarget call) as a pure environment `Env`;
- the registry refresh `_refresh_rigs_cache` with its mark pruning and
  status seeding (`_status_init_from_bind`);
- the marking operations `_mark_selected`, `_unmark_selected`,
  `_toggle_selected` over the `_MARKED_NS` set;
- the camera-range fallback logic of `_on_run_bake` (lines 803-818);
- the expression backup/restore protocol (`restore_muted_expressions`).
-/

namespace Burrito

/-- Bake status values, exactly the strings stored in `_STATUS`:
'not', 'baked', 'skipped', 'failed', 'canceled'. -/
inductive Status where
  | not
  | baked
  | skipped
  | failed
  | canceled
deriving DecidableEq, Repr

/-- Terminal statuses are all but 'not' (the Pending state). -/
def Status.isTerminal : Status → Bool
  | Status.not => false
  | _ => true

/-- The `_STATUS` dictionary: a partial map from namespace to status.
`none` models a key absent from the Python dict. -/
def StatusMap : Type := String → Option Status

/-- Model of `_status_set(ns, state)`: sets the status, but defensively
ignores falsy (empty) namespaces, mirroring the `if ns:` guard. -/
def statusSet (m : StatusMap) (ns : String) (s : Status) : StatusMap :=
  if ns = "" then m else fun k => if k = ns then some s else m k

/-- Model of `_status_get(ns)`: dictionary lookup with default 'not'. -/
def statusGet (m : StatusMap) (ns : String) : Status :=
  (m ns).getD Status.not

/-- Model of `_status_init_from_bind(ns, bind_driver)`: seed the status from
the bind driver only when the namespace has no status yet ('baked' when the
driver reads 1, else 'not'); never overwrite an existing entry. -/
def statusInitFromBind (m : StatusMap) (ns : String) (bind : Option Int) : StatusMap :=
  match m ns with
  | some _ => m
  | none => fun k => if k = ns then some (if bind = some 1 then Status.baked else Status.not) else m k

/-- The external world seen by the batch driver:
`cancel k` is the progress-window cancellation flag polled at the checkpoint
before the item at 0-based index `k`; `bindDriver ns` is the result of
`_read_bind_driver(ns)` (`none` when the attribute is missing); `bakeOk ns`
tells whether the external retarget batch call for `ns` succeeds (false
models the call raising an exception). -/
structure Env where
  cancel : Nat → Bool
  bindDriver : String → Option Int
  bakeOk : String → Bool

/-- The terminal status an item reaches through its own processing step when
the loop is not canceled at its checkpoint: 'skipped' when the bind driver
reads 1, else 'baked' on success and 'failed' on exception. -/
def itemOutcome (env : Env) (ns : String) : Status :=
  if env.bindDriver ns = some 1 then Status.skipped
  else if env.bakeOk ns then Status.baked else Status.failed

/-- The body of the loop in `bake_selected_actors_in_range_with_progress`
(lines 224-263), starting at 0-based checkpoint index `k`.  At each item:
poll cancellation; if set, mark the current and all remaining items
'canceled' and stop.  Otherwise read the bind driver; when it reads 1 mark
'skipped', else invoke the retarget call, marking 'baked' on success and
'failed' on exception.  Returns the final status map together with the
trace of namespaces on which the retarget call was invoked. -/
def runFrom (env : Env) : Nat → List String → StatusMap → StatusMap × List String
  | _, [], st => (st, [])
  | k, ns :: rest, st =>
    if env.cancel k = true then
      ((ns :: rest).foldl (fun m r => statusSet m r Status.canceled) st, [])
    else if env.bindDriver ns = some 1 then
      runFrom env (k + 1) rest (statusSet st ns Status.skipped)
    else
      let next := runFrom env (k + 1) rest
        (statusSet st ns (if env.bakeOk ns then Status.baked else Status.failed))
      (next.1, ns :: next.2)

/-- Model of `bake_selected_actors_in_range_with_progress(namespaces, ...)`:
an empty list returns immediately (no work, empty trace); otherwise the loop
runs from checkpoint 0.  The returned map is the final content of the
`_STATUS` global; the list is the trace of invoked retarget calls. -/
def bake_selected_actors_in_range_with_progress
    (env : Env) (namespaces : List String) (st : StatusMap) : StatusMap × List String :=
  if namespaces.length = 0 then (st, [])
  else runFrom env 0 namespaces st

/-- Model of the batch-launch fragment of `_on_run_bake` (lines 846-854):
when the Skip-Baked checkbox is on, namespaces whose bind driver reads 1 are
removed from the list and immediately marked 'skipped'; the (possibly
filtered) list is then handed to the batch driver. -/
def on_run_bake_batch (env : Env) (skipBaked : Bool) (nsl : List String) (st : StatusMap) :
    StatusMap × List String :=
  if skipBaked then
    let kept := nsl.filter (fun ns => env.bindDriver ns ≠ some 1)
    let st1 := nsl.foldl (fun m ns => if ns ∈ kept then m else statusSet m ns Status.skipped) st
    bake_selected_actors_in_range_with_progress env kept st1
  else
    bake_selected_actors_in_range_with_progress env nsl st

/-- A scene rig as produced by `list_scene_rigs()`:
namespace, actor name, and the bind_skeleton_driver read (0/1/None). -/
structure Rig where
  ns : String
  actor_name : String
  bind_skeleton_driver : Option Int
deriving DecidableEq, Repr

/-- The UI session state relevant to the registry: the rigs cache
`_RIGS_CACHE`, the marked set `_MARKED_NS` and the status map `_STATUS`. -/
structure UIState where
  rigsCache : List Rig
  markedNS : Finset String
  status : StatusMap

/-- The set comprehension of line 403: namespaces present in a rigs list,
keeping only truthy (non-empty) ones. -/
def rigNamespaces (rigs : List Rig) : Finset String :=
  ((rigs.map Rig.ns).filter (fun n => n ≠ "")).toFinset

/-- Model of `_refresh_rigs_cache()` with the freshly scanned scene rigs as
input: replace the cache, prune `_MARKED_NS` down to the namespaces present
in the new scan, and seed the status of every truthy namespace that has no
status yet. -/
def refresh_rigs_cache (st : UIState) (sceneRigs : List Rig) : UIState :=
  { rigsCache := sceneRigs
    markedNS := st.markedNS ∩ rigNamespaces sceneRigs
    status := sceneRigs.foldl
      (fun m r => if r.ns ≠ "" then statusInitFromBind m r.ns r.bind_skeleton_driver else m)
      st.status }

/-- Model of `_mark_selected` with the selected namespaces as input:
add each namespace to `_MARKED_NS` (early return on empty selection). -/
def mark_selected (st : UIState) (nsl : List String) : UIState :=
  if nsl = [] then st
  else { st with markedNS := nsl.foldl (fun m ns => insert ns m) st.markedNS }

/-- Model of `_unmark_selected`: discard each namespace from `_MARKED_NS`. -/
def unmark_selected (st : UIState) (nsl : List String) : UIState :=
  if nsl = [] then st
  else { st with markedNS := nsl.foldl (fun m ns => m.erase ns) st.markedNS }

/-- Model of `_toggle_selected`: per namespace, discard it when marked and
add it when not. -/
def toggle_selected (st : UIState) (nsl : List String) : UIState :=
  if nsl = [] then st
  else
    let f : Finset String → String → Finset String :=
      fun m ns => if ns ∈ m then m.erase ns else insert ns m
    { st with markedNS := nsl.foldl f st.markedNS }

/-- The timeline range computation used both by the Timeline method and by
the camera fallback (lines 815-817 and 819-822): pad the playback window. -/
def timeline_range (tmin tmax pre post : Int) : Int × Int :=
  (tmin - pre, tmax + post)

/-- Model of `_validate_range`: normalize so that start ≤ end. -/
def validate_range (s e : Int) : Int × Int :=
  (min s e, max s e)

/-- Result of range computation: the resolved range if any, and whether a
warning was emitted. -/
structure RangeOutcome where
  range : Option (Int × Int)
  warned : Bool
deriving DecidableEq, Repr

/-- Model of the From-Cameras branch of `_on_run_bake` (lines 804-818).
`camResult` is the outcome of the try block reading headIn/tailOut through
the layout cameras: `Except.ok` carries the computed (start, end), and
`Except.error` models the reads raising.  On failure: with fallback enabled
the timeline range is used and a non-fatal warning emitted; with fallback
disabled a warning is emitted and no range is produced. -/
def compute_cam_range (camResult : Except String (Int × Int)) (allowFallback : Bool)
    (tmin tmax pre post : Int) : RangeOutcome :=
  match camResult with
  | Except.ok r => { range := some r, warned := false }
  | Except.error _ =>
    if allowFallback then { range := some (timeline_range tmin tmax pre post), warned := true }
    else { range := none, warned := true }

/-- The continuation of `_on_run_bake` after camera-range computation: when
no range was produced the function returns without starting any bake
(status untouched, no processing calls); otherwise the range is normalized
and the batch is launched. -/
def run_bake_with_cam (camResult : Except String (Int × Int)) (allowFallback : Bool)
    (tmin tmax pre post : Int) (env : Env) (skipBaked : Bool) (nsl : List String)
    (st : StatusMap) : (StatusMap × List String) × Option (Int × Int) :=
  match (compute_cam_range camResult allowFallback tmin tmax pre post).range with
  | none => ((st, []), none)
  | some r => (on_run_bake_batch env skipBaked nsl st, some (validate_range r.1 r.2))

/-- State for the expression mute/restore protocol: which expression nodes
exist in the scene, their current expression text, and the backup dict
`_muted_expr_backup` (as an association list in insertion order). -/
structure ExprState where
  nodeExists : String → Bool
  exprText : String → String
  backup : List (String × String)

/-- Model of `restore_muted_expressions()`: for each backup entry whose node
still exists, write the saved text back; then clear the backup
unconditionally (entries whose node vanished are dropped, not retried). -/
def restore_muted_expressions (st : ExprState) : ExprState :=
  { nodeExists := st.nodeExists
    exprText := st.backup.foldl
      (fun f p => if st.nodeExists p.1 then (fun k => if k = p.1 then p.2 else f k) else f)
      st.exprText
    backup := [] }

/-! Basic lemmas about the status map primitives. -/

lemma statusSet_ne (m : StatusMap) (ns : String) (s : Status) (k : String) (h : k ≠ ns) :
    statusSet m ns s k = m k := by
  unfold statusSet
  by_cases he : ns = ""
  · rw [if_pos he]
  · rw [if_neg he]
    exact if_neg h

lemma statusSet_self (m : StatusMap) (ns : String) (s : Status) (h : ns ≠ "") :
    statusSet m ns s ns = some s := by
  unfold statusSet
  rw [if_neg h]
  exact if_pos rfl

lemma statusSet_cases (m : StatusMap) (ns : String) (s : Status) (k : String) :
    statusSet m ns s k = m k ∨ statusSet m ns s k = some s := by
  unfold statusSet
  by_cases he : ns = ""
  · rw [if_pos he]; left; rfl
  · rw [if_neg he]
    by_cases hk : k = ns
    · right; exact if_pos hk
    · left; exact if_neg hk

/-! Lemmas about the cancellation fold (the `for rest in namespaces[i-1:]`
loop setting 'canceled'). -/

lemma cancelFold_mem (l : List String) :
    ∀ (st : StatusMap) (ns : String), ns ≠ "" →
      (ns ∈ l ∨ st ns = some Status.canceled) →
      (l.foldl (fun m r => statusSet m r Status.canceled) st) ns = some Status.canceled := by
  induction l with
  | nil =>
    intro st ns _ hm
    exact hm.resolve_left (by simp)
  | cons a t ih =>
    intro st ns hne hm
    simp only [List.foldl_cons]
    apply ih _ _ hne
    rcases hm with hm | hm
    · rcases List.mem_cons.mp hm with rfl | hm'
      · right; exact statusSet_self st ns Status.canceled hne
      · left; exact hm'
    · right
      rcases statusSet_cases st a Status.canceled ns with hc | hc
      · rw [hc, hm]
      · exact hc

lemma cancelFold_frame (l : List String) :
    ∀ (st : StatusMap) (ns : String), ns ∉ l →
      (l.foldl (fun m r => statusSet m r Status.canceled) st) ns = st ns := by
  induction l with
  | nil => intro st ns _; rfl
  | cons a t ih =>
    intro st ns h
    have hna : ns ≠ a := fun e => h (e ▸ List.mem_cons_self a t)
    have hnt : ns ∉ t := fun e => h (List.mem_cons_of_mem a e)
    simp only [List.foldl_cons]
    rw [ih _ _ hnt, statusSet_ne _ _ _ _ hna]

lemma cancelFold_cases (l : List String) :
    ∀ (st : StatusMap) (ns : String),
      (l.foldl (fun m r => statusSet m r Status.canceled) st) ns = st ns ∨
      (l.foldl (fun m r => statusSet m r Status.canceled) st) ns = some Status.canceled := by
  induction l with
  | nil => intro st ns; left; rfl
  | cons a t ih =>
    intro st ns
    simp only [List.foldl_cons]
    rcases ih (statusSet st a Status.canceled) ns with h | h
    · rcases statusSet_cases st a Status.canceled ns with h2 | h2
      · left; rw [h, h2]
      · right; rw [h, h2]
    · right; exact h

/-! Unfolding equations for `runFrom` under each guard. -/

lemma runFrom_cons_cancel (env : Env) (k : Nat) (a : String) (t : List String) (st : StatusMap)
    (h : env.cancel k = true) :
    runFrom env k (a :: t) st =
      ((a :: t).foldl (fun m r => statusSet m r Status.canceled) st, []) := by
  simp [runFrom, h]

lemma runFrom_cons_skip (env : Env) (k : Nat) (a : String) (t : List String) (st : StatusMap)
    (h1 : env.cancel k = false) (h2 : env.bindDriver a = some 1) :
    runFrom env k (a :: t) st = runFrom env (k + 1) t (statusSet st a Status.skipped) := by
  simp [runFrom, h1, h2]

lemma runFrom_cons_bake (env : Env) (k : Nat) (a : String) (t : List String) (st : StatusMap)
    (h1 : env.cancel k = false) (h2 : env.bindDriver a ≠ some 1) :
    runFrom env k (a :: t) st =
      ((runFrom env (k + 1) t
          (statusSet st a (if env.bakeOk a then Status.baked else Status.failed))).1,
        a :: (runFrom env (k + 1) t
          (statusSet st a (if env.bakeOk a then Status.baked else Status.failed))).2) := by
  simp [runFrom, h1, h2]

/-- Frame property of the batch loop: a namespace not in the processed list
keeps exactly its prior status map entry. -/
lemma runFrom_frame (env : Env) (l : List String) :
    ∀ (k : Nat) (st : StatusMap) (ns : String), ns ∉ l →
      (runFrom env k l st).1 ns = st ns := by
  induction l with
  | nil => intro k st ns _; rfl
  | cons a t ih =>
    intro k st ns h
    have hna : ns ≠ a := fun e => h (e ▸ List.mem_cons_self a t)
    have hnt : ns ∉ t := fun e => h (List.mem_cons_of_mem a e)
    cases hc : env.cancel k with
    | true =>
      rw [runFrom_cons_cancel env k a t st hc]
      exact cancelFold_frame _ _ _ h
    | false =>
      by_cases hb : env.bindDriver a = some 1
      · rw [runFrom_cons_skip env k a t st hc hb, ih _ _ _ hnt,
          statusSet_ne _ _ _ _ hna]
      · rw [runFrom_cons_bake env k a t st hc hb]
        show (runFrom env (k + 1) t _).1 ns = st ns
        rw [ih _ _ _ hnt, statusSet_ne _ _ _ _ hna]

/-- Every write made by the batch loop is a terminal status: the loop either
leaves an entry alone or writes a terminal value. -/
lemma runFrom_cases (env : Env) (l : List String) :
    ∀ (k : Nat) (st : StatusMap) (ns : String),
      (runFrom env k l st).1 ns = st ns ∨
      ∃ s, (runFrom env k l st).1 ns = some s ∧ s.isTerminal = true := by
  induction l with
  | nil => intro k st ns; left; rfl
  | cons a t ih =>
    intro k st ns
    cases hc : env.cancel k with
    | true =>
      rw [runFrom_cons_cancel env k a t st hc]
      rcases cancelFold_cases (a :: t) st ns with h | h
      · left; exact h
      · right; exact ⟨Status.canceled, h, rfl⟩
    | false =>
      by_cases hb : env.bindDriver a = some 1
      · rw [runFrom_cons_skip env k a t st hc hb]
        rcases ih (k + 1) (statusSet st a Status.skipped) ns with h | h
        · rcases statusSet_cases st a Status.skipped ns with h2 | h2
          · left; rw [h, h2]
          · right; exact ⟨Status.skipped, by rw [h, h2], rfl⟩
        · right; exact h
      · rw [runFrom_cons_bake env k a t st hc hb]
        show (runFrom env (k + 1) t _).1 ns = st ns ∨ _
        rcases ih (k + 1) (statusSet st a (if env.bakeOk a then Status.baked else Status.failed))
            ns with h | h
        · rcases statusSet_cases st a (if env.bakeOk a then Status.baked else Status.failed)
              ns with h2 | h2
          · left; rw [h, h2]
          · right
            refine ⟨if env.bakeOk a then Status.baked else Status.failed, by rw [h, h2], ?_⟩
            cases env.bakeOk a <;> rfl
        · right; exact h

/-- Every member of the processed list ends with some terminal status. -/
lemma runFrom_mem_terminal (env : Env) (l : List String) :
    ∀ (k : Nat) (st : StatusMap) (ns : String), ns ∈ l → ns ≠ "" →
      ∃ s, (runFrom env k l st).1 ns = some s ∧ s.isTerminal = true := by
  induction l with
  | nil => intro k st ns hm; cases hm
  | cons a t ih =>
    intro k st ns hm hne
    cases hc : env.cancel k with
    | true =>
      rw [runFrom_cons_cancel env k a t st hc]
      exact ⟨Status.canceled, cancelFold_mem _ _ _ hne (Or.inl hm), rfl⟩
    | false =>
      by_cases hb : env.bindDriver a = some 1
      · rw [runFrom_cons_skip env k a t st hc hb]
        by_cases hat : ns ∈ t
        · exact ih _ _ _ hat hne
        · have hns : ns = a := (List.mem_cons.mp hm).resolve_right hat
          subst hns
          rcases runFrom_cases env t (k + 1) (statusSet st ns Status.skipped) ns with h | h
          · exact ⟨Status.skipped, by rw [h, statusSet_self _ _ _ hne], rfl⟩
          · exact h
      · rw [runFrom_cons_bake env k a t st hc hb]
        show ∃ s, (runFrom env (k + 1) t _).1 ns = some s ∧ s.isTerminal = true
        by_cases hat : ns ∈ t
        · exact ih _ _ _ hat hne
        · have hns : ns = a := (List.mem_cons.mp hm).resolve_right hat
          subst hns
          rcases runFrom_cases env t (k + 1)
              (statusSet st ns (if env.bakeOk ns then Status.baked else Status.failed)) ns with h | h
          · refine ⟨if env.bakeOk ns then Status.baked else Status.failed,
              by rw [h, statusSet_self _ _ _ hne], ?_⟩
            cases env.bakeOk ns <;> rfl
          · exact h

/-- When cancellation is never observed, every member of the list ends with
exactly the outcome of its own processing step. -/
lemma runFrom_noCancel_status (env : Env) (hnc : ∀ j, env.cancel j = false) (l : List String) :
    ∀ (k : Nat) (st : StatusMap) (ns : String), ns ∈ l → ns ≠ "" →
      (runFrom env k l st).1 ns = some (itemOutcome env ns) := by
  induction l with
  | nil => intro k st ns hm; cases hm
  | cons a t ih =>
    intro k st ns hm hne
    by_cases hb : env.bindDriver a = some 1
    · rw [runFrom_cons_skip env k a t st (hnc k) hb]
      by_cases hat : ns ∈ t
      · exact ih _ _ _ hat hne
      · have hns : ns = a := (List.mem_cons.mp hm).resolve_right hat
        subst hns
        rw [runFrom_frame env t _ _ _ hat, statusSet_self _ _ _ hne]
        simp [itemOutcome, hb]
    · rw [runFrom_cons_bake env k a t st (hnc k) hb]
      show (runFrom env (k + 1) t _).1 ns = some (itemOutcome env ns)
      by_cases hat : ns ∈ t
      · exact ih _ _ _ hat hne
      · have hns : ns = a := (List.mem_cons.mp hm).resolve_right hat
        subst hns
        rw [runFrom_frame env t _ _ _ hat, statusSet_self _ _ _ hne]
        simp [itemOutcome, hb]

/-- When cancellation is never observed, the external retarget call is
invoked exactly on the listed namespaces whose bind driver does not read 1. -/
lemma runFrom_noCancel_trace (env : Env) (hnc : ∀ j, env.cancel j = false) (l : List String) :
    ∀ (k : Nat) (st : StatusMap) (ns : String),
      ns ∈ (runFrom env k l st).2 ↔ ns ∈ l ∧ env.bindDriver ns ≠ some 1 := by
  induction l with
  | nil => intro k st ns; simp [runFrom]
  | cons a t ih =>
    intro k st ns
    by_cases hb : env.bindDriver a = some 1
    · rw [runFrom_cons_skip env k a t st (hnc k) hb, ih]
      constructor
      · rintro ⟨h1, h2⟩
        exact ⟨List.mem_cons_of_mem _ h1, h2⟩
      · rintro ⟨h1, h2⟩
        rcases List.mem_cons.mp h1 with rfl | h1'
        · exact absurd hb h2
        · exact ⟨h1', h2⟩
    · rw [runFrom_cons_bake env k a t st (hnc k) hb]
      show ns ∈ a :: (runFrom env (k + 1) t _).2 ↔ _
      rw [List.mem_cons, ih]
      constructor
      · rintro (rfl | ⟨h1, h2⟩)
        · exact ⟨List.mem_cons_self _ _, hb⟩
        · exact ⟨List.mem_cons_of_mem _ h1, h2⟩
      · rintro ⟨h1, h2⟩
        rcases List.mem_cons.mp h1 with rfl | h1'
        · left; rfl
        · right; exact ⟨h1', h2⟩

/-- Full characterization of the loop under a first-observed cancellation:
with the cancellation signal first set at the checkpoint before relative
index `k`, items before `k` get their own processing outcome and items from
`k` on are all marked 'canceled'. -/
lemma runFrom_cancel_split (env : Env) (l : List String) :
    ∀ (i k : Nat) (st : StatusMap),
      env.cancel (i + k) = true → (∀ j, j < k → env.cancel (i + j) = false) →
      l.Nodup → (∀ ns ∈ l, ns ≠ "") →
      ∀ (j : Nat) (hj : j < l.length),
        (runFrom env i l st).1 (l.get ⟨j, hj⟩) =
          if j < k then some (itemOutcome env (l.get ⟨j, hj⟩)) else some Status.canceled := by
  induction l with
  | nil =>
    intro i k st _ _ _ _ j hj
    exact absurd hj (by simp)
  | cons a t ih =>
    intro i k st hck hprev hnd hne j hj
    cases k with
    | zero =>
      have hc : env.cancel i = true := by simpa using hck
      rw [runFrom_cons_cancel env i a t st hc, if_neg (Nat.not_lt_zero j)]
      have hmem : (a :: t).get ⟨j, hj⟩ ∈ a :: t := List.get_mem _ _ _
      exact cancelFold_mem _ _ _ (hne _ hmem) (Or.inl hmem)
    | succ k' =>
      have hc : env.cancel i = false := by simpa using hprev 0 (Nat.succ_pos k')
      have hna : a ∉ t := (List.nodup_cons.mp hnd).1
      have hnd' : t.Nodup := (List.nodup_cons.mp hnd).2
      have hne' : ∀ ns ∈ t, ns ≠ "" := fun ns h => hne ns (List.mem_cons_of_mem _ h)
      have hck' : env.cancel (i + 1 + k') = true := by
        have he : i + 1 + k' = i + (k' + 1) := by omega
        rw [he]; exact hck
      have hprev' : ∀ j, j < k' → env.cancel (i + 1 + j) = false := by
        intro j hjj
        have he : i + 1 + j = i + (j + 1) := by omega
        rw [he]; exact hprev (j + 1) (Nat.succ_lt_succ hjj)
      have hae : a ≠ "" := hne a (List.mem_cons_self _ _)
      by_cases hb : env.bindDriver a = some 1
      · rw [runFrom_cons_skip env i a t st hc hb]
        cases j with
        | zero =>
          rw [if_pos (Nat.succ_pos k')]
          show (runFrom env (i + 1) t _).1 a = some (itemOutcome env a)
          rw [runFrom_frame env t _ _ _ hna, statusSet_self _ _ _ hae]
          simp [itemOutcome, hb]
        | succ j' =>
          have hj' : j' < t.length := by simpa using hj
          have H := ih (i + 1) k' (statusSet st a Status.skipped) hck' hprev' hnd' hne' j' hj'
          have hg : (a :: t).get ⟨j' + 1, hj⟩ = t.get ⟨j', hj'⟩ := rfl
          rw [hg, H]
          by_cases hlt : j' < k'
          · rw [if_pos hlt, if_pos (Nat.succ_lt_succ hlt)]
          · rw [if_neg hlt, if_neg (fun h => hlt (Nat.lt_of_succ_lt_succ h))]
      · rw [runFrom_cons_bake env i a t st hc hb]
        cases j with
        | zero =>
          rw [if_pos (Nat.succ_pos k')]
          show (runFrom env (i + 1) t _).1 a = some (itemOutcome env a)
          rw [runFrom_frame env t _ _ _ hna, statusSet_self _ _ _ hae]
          simp [itemOutcome, hb]
        | succ j' =>
          have hj' : j' < t.length := by simpa using hj
          have H := ih (i + 1) k'
            (statusSet st a (if env.bakeOk a then Status.baked else Status.failed))
            hck' hprev' hnd' hne' j' hj'
          have hg : (a :: t).get ⟨j' + 1, hj⟩ = t.get ⟨j', hj'⟩ := rfl
          show (runFrom env (i + 1) t _).1 ((a :: t).get ⟨j' + 1, hj⟩) = _
          rw [hg, H]
          by_cases hlt : j' < k'
          · rw [if_pos hlt, if_pos (Nat.succ_lt_succ hlt)]
          · rw [if_neg hlt, if_neg (fun h => hlt (Nat.lt_of_succ_lt_succ h))]

/-! Lemmas about status seeding and registry refresh. -/

lemma statusInitFromBind_preserve (m : StatusMap) (nsk : String) (b : Option Int)
    (ns : String) (s : Status) (h : m ns = some s) :
    statusInitFromBind m nsk b ns = some s := by
  unfold statusInitFromBind
  cases hm : m nsk with
  | some _ => exact h
  | none =>
    by_cases he : ns = nsk
    · subst he; rw [h] at hm; cases hm
    · simp only [if_neg he]; exact h

lemma statusInitFromBind_other (m : StatusMap) (nsk : String) (b : Option Int)
    (ns : String) (h : ns ≠ nsk) :
    statusInitFromBind m nsk b ns = m ns := by
  unfold statusInitFromBind
  cases hm : m nsk with
  | some _ => rfl
  | none => simp only [if_neg h]

lemma statusInitFromBind_seed (m : StatusMap) (ns : String) (b : Option Int)
    (h : m ns = none) :
    statusInitFromBind m ns b ns =
      some (if b = some 1 then Status.baked else Status.not) := by
  unfold statusInitFromBind
  rw [h]
  exact if_pos rfl

lemma seedFold_preserve (rigs : List Rig) :
    ∀ (m : StatusMap) (ns : String) (s : Status), m ns = some s →
      (rigs.foldl
        (fun acc r => if r.ns ≠ "" then statusInitFromBind acc r.ns r.bind_skeleton_driver else acc)
        m) ns = some s := by
  induction rigs with
  | nil => intro m ns s h; exact h
  | cons r t ih =>
    intro m ns s h
    simp only [List.foldl_cons]
    apply ih
    by_cases hr : r.ns ≠ ""
    · rw [if_pos hr]; exact statusInitFromBind_preserve _ _ _ _ _ h
    · rw [if_neg hr]; exact h

lemma seedFold_other (rigs : List Rig) :
    ∀ (m : StatusMap) (ns : String), (∀ r ∈ rigs, r.ns ≠ ns) →
      (rigs.foldl
        (fun acc r => if r.ns ≠ "" then statusInitFromBind acc r.ns r.bind_skeleton_driver else acc)
        m) ns = m ns := by
  induction rigs with
  | nil => intro m ns _; rfl
  | cons r t ih =>
    intro m ns h
    simp only [List.foldl_cons]
    rw [ih _ _ (fun r' hr' => h r' (List.mem_cons_of_mem _ hr'))]
    by_cases hr : r.ns ≠ ""
    · rw [if_pos hr]
      exact statusInitFromBind_other _ _ _ _ (fun e => h r (List.mem_cons_self _ _) e.symm)
    · rw [if_neg hr]

lemma refresh_status_preserve (st : UIState) (rigs : List Rig) (ns : String) (s : Status)
    (h : st.status ns = some s) : (refresh_rigs_cache st rigs).status ns = some s :=
  seedFold_preserve rigs st.status ns s h

lemma refreshSeq_preserve (seq : List (List Rig)) :
    ∀ (st : UIState) (ns : String) (s : Status), st.status ns = some s →
      (seq.foldl refresh_rigs_cache st).status ns = some s := by
  induction seq with
  | nil => intro st ns s h; exact h
  | cons rigs t ih =>
    intro st ns s h
    simp only [List.foldl_cons]
    exact ih _ _ _ (refresh_status_preserve st rigs ns s h)

/-! Lemmas about the marking folds. -/

lemma markFold_mem (l : List String) :
    ∀ (M : Finset String) (x : String),
      x ∈ l.foldl (fun m ns => insert ns m) M ↔ x ∈ M ∨ x ∈ l := by
  induction l with
  | nil => intro M x; simp
  | cons a t ih =>
    intro M x
    simp only [List.foldl_cons]
    rw [ih]
    simp only [Finset.mem_insert, List.mem_cons]
    tauto

lemma markFold_eq (l : List String) (M : Finset String) :
    l.foldl (fun m ns => insert ns m) M = M ∪ l.toFinset := by
  ext x
  rw [markFold_mem]
  simp

lemma eraseFold_mem (l : List String) :
    ∀ (M : Finset String) (x : String),
      x ∈ l.foldl (fun m ns => m.erase ns) M ↔ x ∈ M ∧ x ∉ l := by
  induction l with
  | nil => intro M x; simp
  | cons a t ih =>
    intro M x
    simp only [List.foldl_cons]
    rw [ih]
    simp only [Finset.mem_erase, List.mem_cons]
    tauto

lemma eraseFold_eq (l : List String) (M : Finset String) :
    l.foldl (fun m ns => m.erase ns) M = M \ l.toFinset := by
  ext x
  rw [eraseFold_mem]
  simp [Finset.mem_sdiff]

lemma toggleFold_absent (l : List String) :
    ∀ (M : Finset String), (∀ ns ∈ l, ns ∉ M) → l.Nodup →
      l.foldl (fun m ns => if ns ∈ m then m.erase ns else insert ns m) M = M ∪ l.toFinset := by
  induction l with
  | nil => intro M _ _; simp
  | cons a t ih =>
    intro M habs hnd
    simp only [List.foldl_cons]
    rw [if_neg (habs a (List.mem_cons_self _ _))]
    rw [ih (insert a M) ?_ (List.nodup_cons.mp hnd).2]
    · ext x
      simp only [Finset.mem_union, Finset.mem_insert, List.mem_toFinset, List.mem_cons]
      tauto
    · intro ns hns
      rw [Finset.mem_insert]
      push_neg
      exact ⟨fun e => (List.nodup_cons.mp hnd).1 (e ▸ hns),
        habs ns (List.mem_cons_of_mem _ hns)⟩

/-- The item outcome is 'skipped' exactly when the bind driver reads 1. -/
lemma itemOutcome_skipped_iff (env : Env) (ns : String) :
    itemOutcome env ns = Status.skipped ↔ env.bindDriver ns = some 1 := by
  unfold itemOutcome
  by_cases hb : env.bindDriver ns = some 1
  · simp [hb]
  · rw [if_neg hb]
    constructor
    · intro h
      cases hk : env.bakeOk ns <;> rw [hk] at h <;> simp at h
    · intro h; exact absurd h hb

/-- The pre-filter fold of `_on_run_bake` (line 851-853) marks 'skipped'
every listed namespace dropped from the kept list. -/
lemma skipFold_mem (kept l : List String) :
    ∀ (st : StatusMap) (ns : String), ns ≠ "" →
      ((ns ∈ l ∧ ns ∉ kept) ∨ st ns = some Status.skipped) →
      (l.foldl (fun m x => if x ∈ kept then m else statusSet m x Status.skipped) st) ns =
        some Status.skipped := by
  induction l with
  | nil =>
    intro st ns _ hm
    exact hm.resolve_left (fun h => (List.not_mem_nil ns) h.1)
  | cons a t ih =>
    intro st ns hne hm
    simp only [List.foldl_cons]
    apply ih _ _ hne
    rcases hm with ⟨hml, hnk⟩ | hp
    · rcases List.mem_cons.mp hml with rfl | hm'
      · right
        rw [if_neg hnk]
        exact statusSet_self st ns Status.skipped hne
      · left; exact ⟨hm', hnk⟩
    · right
      by_cases hak : a ∈ kept
      · rw [if_pos hak]; exact hp
      · rw [if_neg hak]
        rcases statusSet_cases st a Status.skipped ns with h2 | h2
        · rw [h2, hp]
        · exact h2

/-- C1: for every non-empty id list handed to the batch driver, every
(non-empty) id in the list ends the call with a terminal status, every id
outside the list keeps its prior status entry, and the returned map is the
final status mapping. -/
theorem C1_batch_driver_terminal (env : Env) (namespaces : List String) (st : StatusMap)
    (hne : namespaces ≠ []) (hids : ∀ ns ∈ namespaces, ns ≠ "") :
    (∀ ns ∈ namespaces,
      ∃ s, (bake_selected_actors_in_range_with_progress env namespaces st).1 ns = some s ∧
        s.isTerminal = true)
    ∧ (∀ ns, ns ∉ namespaces →
        (bake_selected_actors_in_range_with_progress env namespaces st).1 ns = st ns) := by
  have hlen : ¬ namespaces.length = 0 := fun h => hne (List.length_eq_zero.mp h)
  unfold bake_selected_actors_in_range_with_progress
  rw [if_neg hlen]
  exact ⟨fun ns hm => runFrom_mem_terminal env namespaces 0 st ns hm (hids ns hm),
    fun ns hnm => runFrom_frame env namespaces 0 st ns hnm⟩

/-- Witness for C1 at a concrete run: two items, one skipped and one baked,
both terminal; an unrelated id is untouched. -/
theorem C1_batch_driver_terminal_witness :
    (∃ s, (bake_selected_actors_in_range_with_progress
        (⟨fun _ => false, fun ns => if ns = "a" then some 1 else some 0, fun _ => true⟩ : Env)
        ["a", "b"] (fun _ => none)).1 "a" = some s ∧ s.isTerminal = true)
    ∧ (bake_selected_actors_in_range_with_progress
        (⟨fun _ => false, fun ns => if ns = "a" then some 1 else some 0, fun _ => true⟩ : Env)
        ["a", "b"] (fun _ => none)).1 "c" = (fun _ => none : StatusMap) "c" :=
  ⟨(C1_batch_driver_terminal
      (⟨fun _ => false, fun ns => if ns = "a" then some 1 else some 0, fun _ => true⟩ : Env)
      ["a", "b"] (fun _ => none) (by decide) (by decide)).1 "a" (by decide),
    (C1_batch_driver_terminal
      (⟨fun _ => false, fun ns => if ns = "a" then some 1 else some 0, fun _ => true⟩ : Env)
      ["a", "b"] (fun _ => none) (by decide) (by decide)).2 "c" (by decide)⟩

/-- C2 counterexample: with the Skip-Baked policy disabled, an item whose
bind driver reads 1 is still marked 'skipped' by the batch loop and the
external processing call is never invoked for it — refuting the claim that
disabling the policy forces processing of ready items. -/
theorem C2_counterexample :
    (on_run_bake_batch (⟨fun _ => false, fun _ => some 1, fun _ => true⟩ : Env)
        false ["a"] (fun _ => none)).1 "a" = some Status.skipped
    ∧ (on_run_bake_batch (⟨fun _ => false, fun _ => some 1, fun _ => true⟩ : Env)
        false ["a"] (fun _ => none)).2 = [] := by
  exact ⟨rfl, rfl⟩

/-- C2 (amended): in an uncanceled run, an item of the input list is marked
'skipped' if and only if its bind driver reads 1, and the external
processing call is invoked for it if and only if its bind driver does not
read 1 — irrespective of the Skip-Baked policy.  Disabling the policy does
not force processing of ready items: the loop itself re-checks the flag. -/
theorem C2_amended (env : Env) (skipBaked : Bool) (nsl : List String) (st : StatusMap)
    (ns : String) (hnc : ∀ j, env.cancel j = false) (hm : ns ∈ nsl) (hne : ns ≠ "") :
    ((on_run_bake_batch env skipBaked nsl st).1 ns = some Status.skipped ↔
      env.bindDriver ns = some 1)
    ∧ (ns ∈ (on_run_bake_batch env skipBaked nsl st).2 ↔ env.bindDriver ns ≠ some 1) := by
  have hlen : ¬ nsl.length = 0 := by
    intro h
    rw [List.length_eq_zero.mp h] at hm
    exact List.not_mem_nil ns hm
  cases skipBaked with
  | false =>
    have hred : on_run_bake_batch env false nsl st =
        bake_selected_actors_in_range_with_progress env nsl st := rfl
    rw [hred]
    unfold bake_selected_actors_in_range_with_progress
    rw [if_neg hlen]
    constructor
    · rw [runFrom_noCancel_status env hnc nsl 0 st ns hm hne]
      constructor
      · intro h
        exact (itemOutcome_skipped_iff env ns).mp (Option.some.inj h)
      · intro h
        rw [(itemOutcome_skipped_iff env ns).mpr h]
    · rw [runFrom_noCancel_trace env hnc nsl 0 st ns]
      exact ⟨fun h => h.2, fun h => ⟨hm, h⟩⟩
  | true =>
    have hred : on_run_bake_batch env true nsl st =
        bake_selected_actors_in_range_with_progress env
          (nsl.filter (fun x => env.bindDriver x ≠ some 1))
          (nsl.foldl
            (fun m x => if x ∈ nsl.filter (fun x => env.bindDriver x ≠ some 1) then m
              else statusSet m x Status.skipped) st) := rfl
    rw [hred]
    by_cases hb : env.bindDriver ns = some 1
    · have hnk : ns ∉ nsl.filter (fun x => env.bindDriver x ≠ some 1) := by
        intro h
        have := (List.mem_filter.mp h).2
        simp only [decide_eq_true_eq] at this
        exact this hb
      have h2 : (nsl.foldl
          (fun m x => if x ∈ nsl.filter (fun x => env.bindDriver x ≠ some 1) then m
            else statusSet m x Status.skipped) st) ns = some Status.skipped :=
        skipFold_mem _ nsl st ns hne (Or.inl ⟨hm, hnk⟩)
      have h1 : (bake_selected_actors_in_range_with_progress env
          (nsl.filter (fun x => env.bindDriver x ≠ some 1))
          (nsl.foldl
            (fun m x => if x ∈ nsl.filter (fun x => env.bindDriver x ≠ some 1) then m
              else statusSet m x Status.skipped) st)).1 ns = some Status.skipped := by
        unfold bake_selected_actors_in_range_with_progress
        by_cases h0 : (nsl.filter (fun x => env.bindDriver x ≠ some 1)).length = 0
        · rw [if_pos h0]; exact h2
        · rw [if_neg h0]
          rw [runFrom_frame env _ 0 _ ns hnk]
          exact h2
      have h3 : ns ∉ (bake_selected_actors_in_range_with_progress env
          (nsl.filter (fun x => env.bindDriver x ≠ some 1))
          (nsl.foldl
            (fun m x => if x ∈ nsl.filter (fun x => env.bindDriver x ≠ some 1) then m
              else statusSet m x Status.skipped) st)).2 := by
        unfold bake_selected_actors_in_range_with_progress
        by_cases h0 : (nsl.filter (fun x => env.bindDriver x ≠ some 1)).length = 0
        · rw [if_pos h0]; exact List.not_mem_nil ns
        · rw [if_neg h0]
          rw [runFrom_noCancel_trace env hnc _ 0 _ ns]
          exact fun h => hnk h.1
      refine ⟨iff_of_true h1 hb, iff_of_false h3 (fun h => h hb)⟩
    · have hk : ns ∈ nsl.filter (fun x => env.bindDriver x ≠ some 1) :=
        List.mem_filter.mpr ⟨hm, by simpa using hb⟩
      have h0 : ¬ (nsl.filter (fun x => env.bindDriver x ≠ some 1)).length = 0 := by
        intro h
        rw [List.length_eq_zero.mp h] at hk
        exact List.not_mem_nil ns hk
      unfold bake_selected_actors_in_range_with_progress
      rw [if_neg h0]
      constructor
      · rw [runFrom_noCancel_status env hnc _ 0 _ ns hk hne]
        constructor
        · intro h
          exact (itemOutcome_skipped_iff env ns).mp (Option.some.inj h)
        · intro h
          rw [(itemOutcome_skipped_iff env ns).mpr h]
      · rw [runFrom_noCancel_trace env hnc _ 0 _ ns]
        exact ⟨fun h => h.2, fun h => ⟨hk, h⟩⟩

/-- Witness for C2 (amended) at a concrete run: skip policy off, one ready
and one unready item; the ready one is skipped, the unready one processed. -/
theorem C2_amended_witness :
    ((on_run_bake_batch (⟨fun _ => false, fun ns => if ns = "a" then some 1 else some 0,
        fun _ => true⟩ : Env) false ["a", "b"] (fun _ => none)).1 "a" = some Status.skipped ↔
      (⟨fun _ => false, fun ns => if ns = "a" then some 1 else some 0,
        fun _ => true⟩ : Env).bindDriver "a" = some 1)
    ∧ (("a" ∈ (on_run_bake_batch (⟨fun _ => false, fun ns => if ns = "a" then some 1 else some 0,
        fun _ => true⟩ : Env) false ["a", "b"] (fun _ => none)).2) ↔
      (⟨fun _ => false, fun ns => if ns = "a" then some 1 else some 0,
        fun _ => true⟩ : Env).bindDriver "a" ≠ some 1) :=
  C2_amended (⟨fun _ => false, fun ns => if ns = "a" then some 1 else some 0,
      fun _ => true⟩ : Env) false ["a", "b"] (fun _ => none) "a"
    (fun _ => rfl) (by decide) (by decide)

/-- C3: when the cancellation signal is first observed at the checkpoint
before the item at index `k`, every item at an index `≥ k` ends 'canceled'
and every item at an index `< k` keeps exactly the terminal outcome of its
own processing step. -/
theorem C3_cancellation_split (env : Env) (nsl : List String) (st : StatusMap) (k : Nat)
    (hc : env.cancel k = true) (hprev : ∀ j, j < k → env.cancel j = false)
    (hnd : nsl.Nodup) (hids : ∀ ns ∈ nsl, ns ≠ "") :
    (∀ (j : Nat) (hj : j < nsl.length), k ≤ j →
      (bake_selected_actors_in_range_with_progress env nsl st).1 (nsl.get ⟨j, hj⟩) =
        some Status.canceled)
    ∧ (∀ (j : Nat) (hj : j < nsl.length), j < k →
      (bake_selected_actors_in_range_with_progress env nsl st).1 (nsl.get ⟨j, hj⟩) =
        some (itemOutcome env (nsl.get ⟨j, hj⟩))) := by
  have hck : env.cancel (0 + k) = true := by simpa using hc
  have hprev' : ∀ j, j < k → env.cancel (0 + j) = false := by
    intro j hj; simpa using hprev j hj
  constructor
  · intro j hj hkj
    have hlen : ¬ nsl.length = 0 := fun h => by omega
    unfold bake_selected_actors_in_range_with_progress
    rw [if_neg hlen]
    rw [runFrom_cancel_split env nsl 0 k st hck hprev' hnd hids j hj]
    exact if_neg (fun h => absurd hkj (Nat.not_le_of_lt h))
  · intro j hj hjk
    have hlen : ¬ nsl.length = 0 := fun h => by omega
    unfold bake_selected_actors_in_range_with_progress
    rw [if_neg hlen]
    rw [runFrom_cancel_split env nsl 0 k st hck hprev' hnd hids j hj]
    exact if_pos hjk

/-- Witness for C3 at a concrete run: three items, cancellation first seen
before index 1; item 0 keeps its own outcome, items 1 and 2 end canceled. -/
theorem C3_cancellation_split_witness :
    (bake_selected_actors_in_range_with_progress
        (⟨fun j => j == 1, fun _ => some 0, fun _ => true⟩ : Env)
        ["a", "b", "c"] (fun _ => none)).1 (["a", "b", "c"].get ⟨2, by decide⟩) =
      some Status.canceled
    ∧ (bake_selected_actors_in_range_with_progress
        (⟨fun j => j == 1, fun _ => some 0, fun _ => true⟩ : Env)
        ["a", "b", "c"] (fun _ => none)).1 (["a", "b", "c"].get ⟨0, by decide⟩) =
      some (itemOutcome (⟨fun j => j == 1, fun _ => some 0, fun _ => true⟩ : Env)
        (["a", "b", "c"].get ⟨0, by decide⟩)) :=
  ⟨(C3_cancellation_split (⟨fun j => j == 1, fun _ => some 0, fun _ => true⟩ : Env)
      ["a", "b", "c"] (fun _ => none) 1 rfl
      (by intro j hj; have hj0 : j = 0 := by omega
          subst hj0; rfl)
      (by decide) (by decide)).1 2 (by decide) (by decide),
    (C3_cancellation_split (⟨fun j => j == 1, fun _ => some 0, fun _ => true⟩ : Env)
      ["a", "b", "c"] (fun _ => none) 1 rfl
      (by intro j hj; have hj0 : j = 0 := by omega
          subst hj0; rfl)
      (by decide) (by decide)).2 0 (by decide) (by decide)⟩

/-- C4: a failing external processing call is contained — the failing item
is recorded 'failed' and the loop simply continues with the remaining items
(totality of the model reflects that no exception escapes the loop); when
the failing item does not reoccur later, it also ends the run 'failed'. -/
theorem C4_failure_contained (env : Env) (k : Nat) (x : String) (rest : List String)
    (st : StatusMap) (hc : env.cancel k = false) (hb : env.bindDriver x ≠ some 1)
    (hf : env.bakeOk x = false) :
    runFrom env k (x :: rest) st =
      ((runFrom env (k + 1) rest (statusSet st x Status.failed)).1,
        x :: (runFrom env (k + 1) rest (statusSet st x Status.failed)).2)
    ∧ (x ≠ "" → x ∉ rest → (runFrom env k (x :: rest) st).1 x = some Status.failed) := by
  have h1 := runFrom_cons_bake env k x rest st hc hb
  rw [hf] at h1
  simp only [Bool.false_eq_true, if_false] at h1
  refine ⟨h1, fun hxe hxr => ?_⟩
  rw [h1]
  show (runFrom env (k + 1) rest (statusSet st x Status.failed)).1 x = some Status.failed
  rw [runFrom_frame env rest _ _ _ hxr, statusSet_self _ _ _ hxe]

/-- Witness for C4 at a concrete run: the first item fails, is recorded
'failed', and the second item is still attempted (it ends baked). -/
theorem C4_failure_contained_witness :
    (runFrom (⟨fun _ => false, fun _ => none, fun ns => ns == "b"⟩ : Env) 0 ["a", "b"]
      (fun _ => none)).1 "a" = some Status.failed :=
  (C4_failure_contained (⟨fun _ => false, fun _ => none, fun ns => ns == "b"⟩ : Env) 0 "a" ["b"]
    (fun _ => none) rfl (by decide) rfl).2 (by decide) (by decide)

/-- C5: status seeding happens at most once per id — the first refresh that
observes an id seeds 'baked' when its bind driver reads 1 and 'not'
otherwise, and any later sequence of refreshes leaves an already-present
status entry untouched, even if the bind driver has changed. -/
theorem C5_seed_once (st : UIState) (rigs : List Rig) (seq : List (List Rig)) (ns : String) :
    (∀ (pre post : List Rig) (r : Rig), rigs = pre ++ r :: post → r.ns = ns → ns ≠ "" →
      (∀ r' ∈ pre, r'.ns ≠ ns) → st.status ns = none →
      (refresh_rigs_cache st rigs).status ns =
        some (if r.bind_skeleton_driver = some 1 then Status.baked else Status.not))
    ∧ (∀ s : Status, (refresh_rigs_cache st rigs).status ns = some s →
      (seq.foldl refresh_rigs_cache (refresh_rigs_cache st rigs)).status ns = some s) := by
  constructor
  · intro pre post r hsplit hrns hne hpre hnone
    subst hsplit
    show ((pre ++ r :: post).foldl
      (fun acc q => if q.ns ≠ "" then statusInitFromBind acc q.ns q.bind_skeleton_driver else acc)
      st.status) ns = _
    rw [List.foldl_append, List.foldl_cons]
    have hmid : (pre.foldl
        (fun acc q => if q.ns ≠ "" then statusInitFromBind acc q.ns q.bind_skeleton_driver else acc)
        st.status) ns = none := by
      rw [seedFold_other pre st.status ns hpre]
      exact hnone
    apply seedFold_preserve
    rw [hrns, if_pos hne]
    exact statusInitFromBind_seed _ ns r.bind_skeleton_driver hmid
  · intro s h
    exact refreshSeq_preserve seq _ ns s h

/-- Witness for C5 at a concrete session: an id first seen with bind driver
1 is seeded 'baked', and a later refresh where the flag flipped to 0 leaves
the status 'baked'. -/
theorem C5_seed_once_witness :
    ([[(⟨"a", "A", some 0⟩ : Rig)]].foldl refresh_rigs_cache
      (refresh_rigs_cache (⟨[], ∅, fun _ => none⟩ : UIState)
        [(⟨"a", "A", some 1⟩ : Rig)])).status "a" = some Status.baked :=
  (C5_seed_once (⟨[], ∅, fun _ => none⟩ : UIState) [(⟨"a", "A", some 1⟩ : Rig)]
      [[(⟨"a", "A", some 0⟩ : Rig)]] "a").2 Status.baked
    ((C5_seed_once (⟨[], ∅, fun _ => none⟩ : UIState) [(⟨"a", "A", some 1⟩ : Rig)]
        [[(⟨"a", "A", some 0⟩ : Rig)]] "a").1 [] [] (⟨"a", "A", some 1⟩ : Rig)
      rfl rfl (by decide) (fun r' h => absurd h (List.not_mem_nil r')) rfl)

/-- C6 counterexample: with `{a}` already marked, `mark([a]); unmark([a])`
leaves the marked set empty instead of restoring `{a}` — refuting the claim
that mark-then-unmark restores the prior marked set for every `S`. -/
theorem C6_counterexample :
    (unmark_selected (mark_selected (⟨[], {"a"}, fun _ => none⟩ : UIState) ["a"])
      ["a"]).markedNS ≠ (⟨[], {"a"}, fun _ => none⟩ : UIState).markedNS := by
  decide

/-- C6 (amended): `mark(S); unmark(S)` leaves the prior marked set minus
`S`; it restores the prior marked set exactly when `S` is disjoint from it. -/
theorem C6_amended (st : UIState) (nsl : List String) :
    (unmark_selected (mark_selected st nsl) nsl).markedNS = st.markedNS \ nsl.toFinset
    ∧ (Disjoint st.markedNS nsl.toFinset →
      (unmark_selected (mark_selected st nsl) nsl).markedNS = st.markedNS) := by
  have h : (unmark_selected (mark_selected st nsl) nsl).markedNS =
      st.markedNS \ nsl.toFinset := by
    unfold mark_selected unmark_selected
    by_cases he : nsl = []
    · subst he; simp
    · rw [if_neg he, if_neg he]
      show nsl.foldl (fun m ns => m.erase ns) (nsl.foldl (fun m ns => insert ns m) st.markedNS)
        = _
      rw [eraseFold_eq, markFold_eq]
      ext x
      simp only [Finset.mem_sdiff, Finset.mem_union]
      tauto
  exact ⟨h, fun hd => by rw [h, Finset.sdiff_eq_self_of_disjoint hd]⟩

/-- Witness for C6 (amended) at a concrete state: marking then unmarking a
set disjoint from the prior marks restores the prior marked set. -/
theorem C6_amended_witness :
    (unmark_selected (mark_selected (⟨[], {"b"}, fun _ => none⟩ : UIState) ["a"])
      ["a"]).markedNS = (⟨[], {"b"}, fun _ => none⟩ : UIState).markedNS :=
  (C6_amended (⟨[], {"b"}, fun _ => none⟩ : UIState) ["a"]).2 (by decide)

/-- C7 counterexample: marking an id absent from the inventory adds it to
the marked set (it is not ignored), so the subset invariant is violated
right after the call — refuting the claim as stated. -/
theorem C7_counterexample :
    ¬ ((mark_selected (⟨[], ∅, fun _ => none⟩ : UIState) ["x"]).markedNS ⊆
        rigNamespaces (⟨[], ∅, fun _ => none⟩ : UIState).rigsCache) := by
  decide

/-- C7 (amended): every refresh re-establishes the subset invariant by
pruning marks of vanished ids; `unmark` of absent ids is a silent no-op;
but `mark` and `toggle` add every given id (absent ones included) to the
marked set without error, so the invariant holds only after a refresh. -/
theorem C7_amended (st : UIState) (rigs : List Rig) (nsl : List String) :
    (refresh_rigs_cache st rigs).markedNS ⊆ rigNamespaces rigs
    ∧ (mark_selected st nsl).markedNS = st.markedNS ∪ nsl.toFinset
    ∧ ((∀ ns ∈ nsl, ns ∉ st.markedNS) →
      (unmark_selected st nsl).markedNS = st.markedNS)
    ∧ ((∀ ns ∈ nsl, ns ∉ st.markedNS) → nsl.Nodup →
      (toggle_selected st nsl).markedNS = st.markedNS ∪ nsl.toFinset) := by
  refine ⟨?_, ?_, ?_, ?_⟩
  · show st.markedNS ∩ rigNamespaces rigs ⊆ rigNamespaces rigs
    exact Finset.inter_subset_right
  · unfold mark_selected
    by_cases he : nsl = []
    · subst he; simp
    · rw [if_neg he]
      exact markFold_eq nsl st.markedNS
  · intro habs
    unfold unmark_selected
    by_cases he : nsl = []
    · subst he; rfl
    · rw [if_neg he]
      show nsl.foldl (fun m ns => m.erase ns) st.markedNS = _
      rw [eraseFold_eq]
      exact Finset.sdiff_eq_self_of_disjoint
        (Finset.disjoint_right.mpr (fun a ha => habs a (List.mem_toFinset.mp ha)))
  · intro habs hnd
    unfold toggle_selected
    by_cases he : nsl = []
    · subst he; simp
    · rw [if_neg he]
      show nsl.foldl (fun m ns => if ns ∈ m then m.erase ns else insert ns m) st.markedNS = _
      exact toggleFold_absent nsl st.markedNS habs hnd

/-- Witness for C7 (amended) at a concrete state: unmark of an absent id is
a no-op and toggle of absent ids adds them. -/
theorem C7_amended_witness :
    (unmark_selected (⟨[], {"b"}, fun _ => none⟩ : UIState) ["a"]).markedNS =
      (⟨[], {"b"}, fun _ => none⟩ : UIState).markedNS
    ∧ (toggle_selected (⟨[], {"b"}, fun _ => none⟩ : UIState) ["a"]).markedNS =
      (⟨[], {"b"}, fun _ => none⟩ : UIState).markedNS ∪ ["a"].toFinset :=
  ⟨(C7_amended (⟨[], {"b"}, fun _ => none⟩ : UIState) [] ["a"]).2.2.1 (by decide),
    (C7_amended (⟨[], {"b"}, fun _ => none⟩ : UIState) [] ["a"]).2.2.2 (by decide) (by decide)⟩

/-- C8: when the From-Cameras range computation fails, fallback enabled
resolves the range through the timeline (FixedWindow) computation with a
non-fatal warning and the run proceeds to the batch; fallback disabled
yields no range and the run returns without starting any bake. -/
theorem C8_camera_fallback (err : String) (tmin tmax pre post : Int) (env : Env)
    (skipBaked : Bool) (nsl : List String) (st : StatusMap) :
    compute_cam_range (Except.error err) true tmin tmax pre post =
      { range := some (timeline_range tmin tmax pre post), warned := true }
    ∧ compute_cam_range (Except.error err) false tmin tmax pre post =
      { range := none, warned := true }
    ∧ run_bake_with_cam (Except.error err) false tmin tmax pre post env skipBaked nsl st =
      ((st, []), none)
    ∧ run_bake_with_cam (Except.error err) true tmin tmax pre post env skipBaked nsl st =
      (on_run_bake_batch env skipBaked nsl st,
        some (validate_range (tmin - pre) (tmax + post))) :=
  ⟨rfl, rfl, rfl, rfl⟩

/-- C9: restoring muted expressions always leaves the backup empty (the
clear is unconditional, vanished nodes included), and restore on an empty
backup — for instance one already emptied by a prior restore — is a no-op
with no state change. -/
theorem C9_restore_clears (st : ExprState) :
    (restore_muted_expressions st).backup = []
    ∧ (st.backup = [] → restore_muted_expressions st = st) := by
  refine ⟨rfl, fun h => ?_⟩
  cases st with
  | mk ne te bu =>
    obtain rfl : bu = [] := h
    rfl

/-- Witness for C9 at a concrete state: a second restore call, after the
backup was emptied by a first restore, changes nothing. -/
theorem C9_restore_clears_witness :
    restore_muted_expressions
      (restore_muted_expressions (⟨fun _ => true, fun _ => "t", [("e", "x")]⟩ : ExprState)) =
      restore_muted_expressions (⟨fun _ => true, fun _ => "t", [("e", "x")]⟩ : ExprState) :=
  (C9_restore_clears
    (restore_muted_expressions (⟨fun _ => true, fun _ => "t", [("e", "x")]⟩ : ExprState))).2
    (C9_restore_clears (⟨fun _ => true, fun _ => "t", [("e", "x")]⟩ : ExprState)).1

/-- C10 counterexample: calling the batch driver with an empty id list when
a status is already recorded returns the untouched, non-empty status
mapping — refuting the claim that it returns an empty status map. -/
theorem C10_counterexample :
    (bake_selected_actors_in_range_with_progress
      (⟨fun _ => false, fun _ => none, fun _ => true⟩ : Env) []
      (fun k => if k = "a" then some Status.baked else none)).1 "a" = some Status.baked := rfl

/-- C10 (amended): calling the batch driver with an empty id list is a
no-op — no processing call is made (empty trace) and no status changes (the
status mapping is returned exactly as it was, hence empty only if it was
already empty). -/
theorem C10_empty_noop (env : Env) (st : StatusMap) :
    bake_selected_actors_in_range_with_progress env [] st = (st, []) := rfl

end Burrito
